import Mathlib

/-!
# Lingtea Dashboard — verification of the core data pipeline

Shallow embedding of the data-transformation pipeline of `src/app.py`
(ingestion / normalization, dimension filtering, group-by-sum aggregation,
month-over-month computation, ranking with top-3 highlighting, and the
channel × month pivot).  Numeric values are modelled as `ℚ` (the source
computes with ordinary machine floats; all properties verified here are
exact arithmetic identities).  Missing (NaN) cells are `Option ℚ` with
`none` for null; pandas sums skip NaN, which is modelled by `Option.getD 0`.

Two pandas behaviours that matter are modelled explicitly:
  * `groupby(key)` (with the default `sort=True`) emits one entry per
    distinct key, keys in ascending order — modelled by sorting the
    deduplicated key list and mapping each key to its group sum;
  * `sort_values(by=v, ascending=False)` computes the ascending argsort of
    `v` and reverses it (`pandas.core.sorting.nargsort` reverses the
    ascending indexer); on small inputs numpy's introsort is insertion
    sort, hence stable — modelled as the reverse of a stable ascending
    insertion sort.
-/

/-- A `YYYY-MM` period key, already split into its year and month.  The
source keeps periods (`출고년월`) as strings and derives the sort key
`pd.to_datetime(s + "-01")`; for canonical `YYYY-MM` strings that datetime
orders exactly by `(year, month)` lexicographically, which is the order
given to this structure below. -/
structure Period where
  y : Nat
  m : Nat
deriving DecidableEq, Repr

theorem Period.ext_iff {a b : Period} : a = b ↔ a.y = b.y ∧ a.m = b.m := by
  cases a; cases b; simp

/-- The chronological (derived-datetime) order on periods: lexicographic on
`(year, month)`. -/
instance : LinearOrder Period where
  le a b := a.y < b.y ∨ (a.y = b.y ∧ a.m ≤ b.m)
  lt a b := a.y < b.y ∨ (a.y = b.y ∧ a.m < b.m)
  le_refl a := Or.inr ⟨rfl, le_refl _⟩
  le_trans a b c hab hbc := by
    rcases hab with h | ⟨h1, h2⟩ <;> rcases hbc with h' | ⟨h1', h2'⟩
    · exact Or.inl (h.trans h')
    · exact Or.inl (h1' ▸ h)
    · exact Or.inl (h1 ▸ h')
    · exact Or.inr ⟨h1.trans h1', h2.trans h2'⟩
  le_antisymm a b hab hba := by
    rcases hab with h | ⟨h1, h2⟩ <;> rcases hba with h' | ⟨h1', h2'⟩ <;>
      first
        | exact absurd h (by omega)
        | exact absurd h' (by omega)
        | exact Period.ext_iff.mpr ⟨h1, le_antisymm h2 h2'⟩
  le_total a b := by
    rcases Nat.lt_trichotomy a.y b.y with h | h | h
    · exact Or.inl (Or.inl h)
    · rcases Nat.le_total a.m b.m with h' | h'
      · exact Or.inl (Or.inr ⟨h, h'⟩)
      · exact Or.inr (Or.inr ⟨h.symm, h'⟩)
    · exact Or.inr (Or.inl h)
  lt_iff_le_not_le a b := by
    constructor
    · rintro (h | ⟨h1, h2⟩)
      · exact ⟨Or.inl h, by rintro (h' | ⟨h1', h2'⟩) <;> omega⟩
      · exact ⟨Or.inr ⟨h1, le_of_lt h2⟩, by rintro (h' | ⟨h1', h2'⟩) <;> omega⟩
    · rintro ⟨h | ⟨h1, h2⟩, hn⟩
      · exact Or.inl h
      · rcases Nat.lt_or_ge b.m a.m with h' | h'
        · exact absurd (Or.inr ⟨h1.symm, le_of_lt h'⟩) hn
        · exact Or.inr ⟨h1, lt_of_le_of_ne h2 (by
            intro he
            exact hn (Or.inr ⟨h1.symm, he ▸ le_refl _⟩))⟩
  decidableLE a b := inferInstanceAs (Decidable (_ ∨ _))
  decidableEq := inferInstance

/-- One normalized shipment record (a row of the frame built by
`load_data`).  `출고일자` (the calendar date) is consumed only by the
upstream 12-month window cut and never used by the filtered pipeline, so it
is not carried here; `quantity` and `revenue` are the parsed
`총내품출고수량` / `품목별매출(VAT제외)` cells, `none` when the cell was
unparseable (pandas NaN). -/
structure Record where
  period : Period
  channel : String
  product : String
  quantity : Option ℚ
  revenue : Option ℚ
deriving DecidableEq, Repr

/-- A record's revenue with null counting as 0 (pandas `.sum()` skips NaN). -/
def revVal (r : Record) : ℚ := r.revenue.getD 0

/-- A record's quantity with null counting as 0. -/
def qtyVal (r : Record) : ℚ := r.quantity.getD 0

/-- `filtered_df`: keep records whose period, channel and product are each
members of the respective inclusion set (`isin` on the three columns,
conjoined). -/
def filtered (months : List Period) (chans prods : List String)
    (rs : List Record) : List Record :=
  rs.filter fun r =>
    decide (r.period ∈ months) && decide (r.channel ∈ chans) &&
      decide (r.product ∈ prods)

/-- `total_qty`: sum of the quantity column, NaN as 0. -/
def total_qty (rs : List Record) : ℚ := (rs.map qtyVal).sum

/-- `total_sales`: sum of the revenue column, NaN as 0. -/
def total_sales (rs : List Record) : ℚ := (rs.map revVal).sum

/-- `groupby(key)[val].sum()` with the default `sort=True`: one entry per
distinct key, keys ascending, each mapped to the in-group sum of `val`. -/
def groupSum {κ : Type} [DecidableEq κ] [LinearOrder κ]
    (key : Record → κ) (val : Record → ℚ) (rs : List Record) :
    List (κ × ℚ) :=
  ((rs.map key).dedup.insertionSort (· ≤ ·)).map fun k =>
    (k, ((rs.filter fun r => decide (key r = k)).map val).sum)

/-- Sum of the revenue of the records of a given period (the value
`groupby("출고년월")` associates to that period key). -/
def periodSum (rs : List Record) (p : Period) : ℚ :=
  ((rs.filter fun r => decide (r.period = p)).map revVal).sum

/-- Sum of the revenue of the records of a given channel. -/
def channelSum (rs : List Record) (c : String) : ℚ :=
  ((rs.filter fun r => decide (r.channel = c)).map revVal).sum

/-- `monthly_sales`: revenue grouped by period, then re-sorted by the
derived datetime key (`to_datetime(period + "-01")`), i.e. by the
chronological order on `Period`. -/
def monthly_sales (rs : List Record) : List (Period × ℚ) :=
  (groupSum (·.period) revVal rs).insertionSort fun a b => a.1 ≤ b.1

/-- `mom`: if at least two periods are present, compare the last two rows of
the chronologically sorted monthly aggregate (`iloc[-1]` vs `iloc[-2]`),
guarding a zero previous month; otherwise 0. -/
def mom (rs : List Record) : ℚ :=
  match (monthly_sales rs).reverse with
  | c :: p :: _ => if p.2 ≠ 0 then (c.2 - p.2) / p.2 * 100 else 0
  | _ => 0

/-- `channel_sums`: revenue grouped by channel (`groupby("거래처코드")`),
keys ascending. -/
def channel_sums (rs : List Record) : List (String × ℚ) :=
  groupSum (·.channel) revVal rs

/-- `idxmax` on a keyed series: the first key whose value is maximal. -/
def idxmax (l : List (String × ℚ)) : Option String :=
  (l.find? fun kv => decide (∀ kv' ∈ l, kv'.2 ≤ kv.2)).map Prod.fst

/-- `top_channel`: `groupby("거래처코드")[...].sum().idxmax()` when the
filtered frame is nonempty, the sentinel `"-"` otherwise. -/
def top_channel (rs : List Record) : String :=
  if rs.isEmpty then "-" else (idxmax (channel_sums rs)).getD "-"

/-- `sort_values(by=v, ascending=False)`: pandas computes the ascending
argsort and reverses it (`pandas.core.sorting.nargsort`).  numpy's default
quicksort guarantees no tie order in general (its introsort is stable only
on tiny inputs, where it falls back to insertion sort), so this model —
the reverse of a stable ascending sort — is exact on small inputs such as
the two-row counterexample below, and agrees with the program on every
stability-independent consequence (membership, permutation, and the
descending value order), which is all the general theorems here use. -/
def sortDescBy {α : Type} (v : α → ℚ) (l : List α) : List α :=
  (l.insertionSort fun a b => v a ≤ v b).reverse

/-- `item_rank`: revenue grouped by product, sorted by value descending. -/
def item_rank (rs : List Record) : List (String × ℚ) :=
  sortDescBy Prod.snd (groupSum (·.product) revVal rs)

/-- `channel_sales`: revenue grouped by channel, sorted by value
descending. -/
def channel_sales (rs : List Record) : List (String × ℚ) :=
  sortDescBy Prod.snd (channel_sums rs)

/-- `s.nlargest(3).values`: the three largest values of `s` (with
multiplicity): the first three entries of `s` sorted descending. -/
def nlargest3 (s : List ℚ) : List ℚ :=
  ((s.insertionSort (· ≤ ·)).reverse).take 3

/-- `highlight_top3`: flag each cell whose value is a member of
`s.nlargest(3).values` (membership is by value, so every cell tied with the
third-largest value is flagged). -/
def highlight_top3 (s : List ℚ) : List Bool :=
  s.map fun v => decide (v ∈ nlargest3 s)

/-- The pivot's column set: the distinct periods observed in the filtered
data, ascending (pandas sorts pivot columns). -/
def pivot_cols (rs : List Record) : List Period :=
  (rs.map (·.period)).dedup.insertionSort (· ≤ ·)

/-- The pivot's base row order: the distinct channels observed in the
filtered data, ascending (`pd.pivot_table` sorts its index, it does not
keep first-appearance order). -/
def pivot_rows0 (rs : List Record) : List String :=
  (rs.map (·.channel)).dedup.insertionSort (· ≤ ·)

/-- One pivot cell: the revenue sum over the records of the given channel
and period, 0 when no such record exists (`fill_value=0`). -/
def pivot_cell (rs : List Record) (c : String) (p : Period) : ℚ :=
  ((rs.filter fun r => decide (r.channel = c) && decide (r.period = p)).map
    revVal).sum

/-- `latest_month = sorted(selected_months)[-1]`: the last element of the
sorted selection; `none` models the `IndexError` Python raises when the
selection is empty. -/
def latest_month (months : List Period) : Option Period :=
  (months.insertionSort (· ≤ ·)).getLast?

/-- The pivot's rows before the anchor-month sort: one row per observed
channel (index ascending), holding the zero-filled revenue cells of every
observed period. -/
def pivot_rows (rs : List Record) : List (String × List ℚ) :=
  (pivot_rows0 rs).map fun c =>
    (c, (pivot_cols rs).map fun p => pivot_cell rs c p)

/-- `pivot_table`, after the anchor-month sort: when the anchor period is
one of the pivot's columns the rows are sorted by that column's value
descending, otherwise the (index-ascending) base order is kept. -/
def pivot_table (rs : List Record) (anchor : Period) :
    List (String × List ℚ) :=
  if anchor ∈ pivot_cols rs then
    sortDescBy (fun row => pivot_cell rs row.1 anchor) (pivot_rows rs)
  else pivot_rows rs

/-- The anchor-period column of the (sorted) pivot, top to bottom. -/
def anchor_col (rs : List Record) (anchor : Period) : List ℚ :=
  (pivot_table rs anchor).map fun row => pivot_cell rs row.1 anchor

/-- `highlight_top3_pivot`: when the anchor period is among the pivot's
columns, flag the anchor-column cells whose value is in
`df[latest_month].nlargest(3).values`; otherwise no cell is flagged. -/
def highlight_top3_pivot (rs : List Record) (anchor : Period) : List Bool :=
  if anchor ∈ pivot_cols rs then highlight_top3 (anchor_col rs anchor)
  else []

/-- Everything the dashboard derives from the filtered frame: the four
KPIs, the monthly trend, the channel ranking, the product ranking with its
top-3 flags, and the pivot with its top-3 flags. -/
structure Outputs where
  totalQty : ℚ
  totalSales : ℚ
  momPct : ℚ
  topChannel : String
  trend : List (Period × ℚ)
  channelRank : List (String × ℚ)
  itemRank : List (String × ℚ)
  itemFlags : List Bool
  pivot : List (String × List ℚ)
  pivotFlags : List Bool
deriving Repr

/-- The whole pipeline downstream of normalization, for one choice of the
three inclusion sets.  Every stage is a total function except the
anchor-period selection `sorted(selected_months)[-1]`, whose `IndexError`
on an empty selection is modelled by `latest_month` returning `none` (and
hence the run producing no `Outputs`). -/
def run_pipeline (months : List Period) (chans prods : List String)
    (df : List Record) : Option Outputs :=
  let f := filtered months chans prods df
  (latest_month months).map fun anchor =>
    { totalQty := total_qty f
      totalSales := total_sales f
      momPct := mom f
      topChannel := top_channel f
      trend := monthly_sales f
      channelRank := channel_sales f
      itemRank := item_rank f
      itemFlags := highlight_top3 ((item_rank f).map Prod.snd)
      pivot := pivot_table f anchor
      pivotFlags := highlight_top3_pivot f anchor }

section SortLemmas

variable {α : Type} (v : α → ℚ)

instance : IsTotal α fun a b => v a ≤ v b := ⟨fun a b => le_total (v a) (v b)⟩

instance : IsTrans α fun a b => v a ≤ v b := ⟨fun _ _ _ => le_trans⟩

instance : DecidableRel fun (a b : α) => v a ≤ v b :=
  fun a b => inferInstanceAs (Decidable (v a ≤ v b))

theorem sortDescBy_perm (l : List α) : List.Perm (sortDescBy v l) l :=
  (List.reverse_perm _).trans (List.perm_insertionSort _ l)

theorem sortDescBy_pairwise (l : List α) :
    (sortDescBy v l).Pairwise fun a b => v b ≤ v a := by
  have h := List.sorted_insertionSort (fun a b => v a ≤ v b) l
  exact (List.pairwise_reverse).mpr h

end SortLemmas

section KeyLemmas

variable {κ : Type} [DecidableEq κ] [LinearOrder κ]

/-- The key list `l.dedup.insertionSort (· ≤ ·)` used by `groupSum` is
sorted ascending. -/
theorem sortedDedup_sorted (l : List κ) :
    (l.dedup.insertionSort (· ≤ ·)).Sorted (· ≤ ·) :=
  List.sorted_insertionSort _ _

theorem sortedDedup_nodup (l : List κ) :
    (l.dedup.insertionSort (· ≤ ·)).Nodup :=
  ((List.perm_insertionSort _ _).nodup_iff).mpr l.nodup_dedup

theorem mem_sortedDedup {l : List κ} {x : κ} :
    x ∈ l.dedup.insertionSort (· ≤ ·) ↔ x ∈ l := by
  rw [List.mem_insertionSort, List.mem_dedup]

/-- The key list of `groupSum` is strictly increasing. -/
theorem sortedDedup_pairwise_lt (l : List κ) :
    (l.dedup.insertionSort (· ≤ ·)).Pairwise (· < ·) :=
  ((sortedDedup_sorted l).and (sortedDedup_nodup l)).imp
    fun h => lt_of_le_of_ne h.1 h.2

end KeyLemmas

section GroupSumLemmas

variable {κ : Type} [DecidableEq κ] [LinearOrder κ]
variable (key : Record → κ) (val : Record → ℚ)

theorem groupSum_eq (rs : List Record) :
    groupSum key val rs =
      ((rs.map key).dedup.insertionSort (· ≤ ·)).map fun k =>
        (k, ((rs.filter fun r => decide (key r = k)).map val).sum) := rfl

/-- Every entry of a `groupSum` is `(k, group sum of k)` for an observed
key `k`. -/
theorem groupSum_mem {rs : List Record} {e : κ × ℚ}
    (he : e ∈ groupSum key val rs) :
    e.1 ∈ rs.map key ∧
      e.2 = ((rs.filter fun r => decide (key r = e.1)).map val).sum := by
  rw [groupSum_eq] at he
  rcases List.mem_map.mp he with ⟨k, hk, rfl⟩
  exact ⟨mem_sortedDedup.mp hk, rfl⟩

/-- Every observed key occurs in the `groupSum`. -/
theorem groupSum_mem_of_key {rs : List Record} {k : κ}
    (hk : k ∈ rs.map key) :
    (k, ((rs.filter fun r => decide (key r = k)).map val).sum) ∈
      groupSum key val rs := by
  rw [groupSum_eq]
  exact List.mem_map.mpr ⟨k, mem_sortedDedup.mpr hk, rfl⟩

end GroupSumLemmas

/-- Two records with tied revenue 10 on distinct products "A" and "B"
(lexicographically `"A" < "B"`); the grouped aggregate lists them in
ascending key order, so the claimed tie-break predicts row order
`["A", "B"]`. -/
def exTie : List Record :=
  [⟨⟨2024, 1⟩, "X", "A", none, some 10⟩,
   ⟨⟨2024, 1⟩, "X", "B", none, some 10⟩]

theorem exTie_item_rank : item_rank exTie = [("B", 10), ("A", 10)] := by
  simp [exTie, item_rank, sortDescBy, groupSum, List.insertionSort,
    List.orderedInsert, List.dedup, List.pwFilter, revVal]

/-- C2 counterexample: on two products tied at revenue 10, `item_rank`
puts key "B" before key "A" — equal-value entries do NOT appear in
key-ascending order, so the claim fails on this input. -/
theorem C2_tie_order_counterexample :
    (item_rank exTie).map Prod.fst = ["B", "A"] ∧ ("A" : String) < "B" ∧
    ¬ ((item_rank exTie).Pairwise fun a b => a.2 = b.2 → a.1 ≤ b.1) := by
  refine ⟨by rw [exTie_item_rank]; rfl, by simp; decide, ?_⟩
  rw [exTie_item_rank]
  simp
  decide

/-- C2 (amended): `item_rank` and `channel_sales` return the grouped
entries sorted by summed value descending.  No relative order among
equal-value entries is guaranteed: the source defines no explicit
tie-break and relies on `sort_values` with numpy's default quicksort,
which is unstable beyond tiny inputs — and even where it is stable the
tie order that comes out (see the counterexample) is key-descending, not
the key-ascending order the claim states. -/
theorem C2_ranker_sorted_desc (rs : List Record) :
    ((item_rank rs).Pairwise fun a b => b.2 ≤ a.2) ∧
    ((channel_sales rs).Pairwise fun a b => b.2 ≤ a.2) :=
  ⟨sortDescBy_pairwise _ _, sortDescBy_pairwise _ _⟩

/-- C3 counterexample: on the empty filtered RecordSet the top-channel KPI
produces the string `"-"` (ASCII hyphen-minus, line 230 of the source),
which is not the em dash `"—"` the claim states. -/
theorem C3_sentinel_counterexample : top_channel [] ≠ "—" := by decide

/-- C3 (amended): when the filtered RecordSet is empty, the top-channel KPI
returns the sentinel string `"-"` (ASCII hyphen-minus) rather than
failing. -/
theorem C3_empty_sentinel : top_channel [] = "-" := rfl

/-- A list whose element at index 2 exists splits off its first three
elements. -/
theorem getElem2_decomp {l : List ℚ} {x : ℚ} (h : l[2]? = some x) :
    ∃ a b t, l = a :: b :: x :: t := by
  match l with
  | a :: b :: c :: t =>
    simp only [List.getElem?_cons_succ, List.getElem?_cons_zero,
      Option.some.injEq] at h
    exact ⟨a, b, t, by rw [h]⟩
  | [] => simp at h
  | [a] => simp at h
  | [a, b] => simp at h

/-- C4: top-3 membership is by value, not by position.  Writing `t3` for
the third-largest value of the column `s` (the entry at index 2 of `s`
sorted descending, hypothesis `h3`, which also forces `3 ≤ s.length`):
a cell is flagged iff its value is `≥ t3` (so in particular every cell
tied with `t3` is flagged); at least 3 cells are flagged, and exactly 3
when no tie exists at the third-largest value; and the pivot's
anchor-column flags are computed by the same by-value rule. -/
theorem C4_top3_by_value (s : List ℚ) (t3 : ℚ)
    (h3 : ((s.insertionSort (· ≤ ·)).reverse)[2]? = some t3) :
    (∀ v ∈ s, (v ∈ nlargest3 s ↔ t3 ≤ v)) ∧
    3 ≤ (highlight_top3 s).count true ∧
    (s.count t3 = 1 → (highlight_top3 s).count true = 3) ∧
    (∀ rs anchor, anchor ∈ pivot_cols rs →
      highlight_top3_pivot rs anchor = highlight_top3 (anchor_col rs anchor))
    := by
  have hperm : List.Perm ((s.insertionSort (· ≤ ·)).reverse) s :=
    (List.reverse_perm _).trans (List.perm_insertionSort _ s)
  have hpw : ((s.insertionSort (· ≤ ·)).reverse).Pairwise fun a b => b ≤ a :=
    (List.pairwise_reverse).mpr (List.sorted_insertionSort _ s)
  obtain ⟨a, b, t, hdec⟩ := getElem2_decomp h3
  rw [hdec] at hperm hpw
  have hn3 : nlargest3 s = [a, b, t3] := by
    rw [nlargest3, hdec]
    rfl
  have pa := (List.pairwise_cons.mp hpw).1
  have pb := (List.pairwise_cons.mp (List.pairwise_cons.mp hpw).2).1
  have pc := (List.pairwise_cons.mp
    (List.pairwise_cons.mp (List.pairwise_cons.mp hpw).2).2).1
  have hmem : ∀ v ∈ s, (v ∈ nlargest3 s ↔ t3 ≤ v) := by
    intro v hv
    rw [hn3]
    constructor
    · intro hvm
      rcases List.mem_cons.mp hvm with rfl | hvm
      · exact pa t3 (List.mem_cons_of_mem _ (List.mem_cons_self _ _))
      rcases List.mem_cons.mp hvm with rfl | hvm
      · exact pb t3 (List.mem_cons_self _ _)
      rcases List.mem_cons.mp hvm with rfl | hvm
      · exact le_refl _
      · exact absurd hvm (List.not_mem_nil v)
    · intro hle
      have hvd : v ∈ a :: b :: t3 :: t := hperm.mem_iff.mpr hv
      rcases List.mem_cons.mp hvd with rfl | hvd
      · exact List.mem_cons_self _ _
      rcases List.mem_cons.mp hvd with rfl | hvd
      · exact List.mem_cons_of_mem _ (List.mem_cons_self _ _)
      rcases List.mem_cons.mp hvd with rfl | hvd
      · exact List.mem_cons_of_mem _
          (List.mem_cons_of_mem _ (List.mem_cons_self _ _))
      · have : v ≤ t3 := pc v hvd
        have : v = t3 := le_antisymm this hle
        subst this
        exact List.mem_cons_of_mem _
          (List.mem_cons_of_mem _ (List.mem_cons_self _ _))
  have hcount : (highlight_top3 s).count true =
      s.countP fun v => decide (t3 ≤ v) := by
    rw [highlight_top3, List.count, List.countP_map]
    refine List.countP_congr ?_
    intro v hv
    simp only [Function.comp_apply, beq_iff_eq, decide_eq_true_eq]
    exact hmem v hv
  have hcount2 : s.countP (fun v => decide (t3 ≤ v)) =
      3 + t.countP fun v => decide (t3 ≤ v) := by
    rw [← hperm.countP_eq]
    have ha : t3 ≤ a := pa t3 (List.mem_cons_of_mem _ (List.mem_cons_self _ _))
    have hb : t3 ≤ b := pb t3 (List.mem_cons_self _ _)
    simp [List.countP_cons, ha, hb]
    omega
  refine ⟨hmem, ?_, ?_, ?_⟩
  · rw [hcount, hcount2]
    omega
  · intro hone
    rw [hcount, hcount2]
    have ht0 : (t.countP fun v => decide (t3 ≤ v)) = 0 := by
      rw [List.countP_eq_zero]
      intro x hx
      simp only [decide_eq_true_eq]
      intro hle
      have hx3 : x = t3 := le_antisymm (pc x hx) hle
      subst hx3
      have : s.count x = (a :: b :: x :: t).count x := (hperm.count_eq x).symm
      rw [this] at hone
      have hpos : 0 < t.count x := List.count_pos_iff.mpr hx
      simp [List.count_cons] at hone
      omega
    omega
  · intro rs anchor h
    rw [highlight_top3_pivot, if_pos h]

/-- `monthly_sales` re-sorts an already key-ascending aggregate, so it IS
the grouped aggregate. -/
theorem monthly_sales_eq (rs : List Record) :
    monthly_sales rs = groupSum (·.period) revVal rs := by
  rw [monthly_sales]
  refine List.Sorted.insertionSort_eq ?_
  rw [groupSum_eq]
  exact (List.pairwise_map).mpr
    ((sortedDedup_sorted _).imp fun h => h)

theorem monthly_sales_length (rs : List Record) :
    (monthly_sales rs).length = (rs.map (·.period)).dedup.length := by
  rw [monthly_sales_eq, groupSum_eq, List.length_map,
    List.length_insertionSort]


/-- If `pLat` is the chronologically greatest period present in `rs` and
`pPrev` the greatest among the remaining ones, the chronologically sorted
monthly aggregate ends with `(pPrev, ·), (pLat, ·)`. -/
theorem monthly_reverse_two_max (rs : List Record) (pLat pPrev : Period)
    (hL : pLat ∈ rs.map (·.period)) (hP : pPrev ∈ rs.map (·.period))
    (hne : pPrev ≠ pLat)
    (hmax : ∀ q ∈ rs.map (·.period), q ≤ pLat)
    (hmax2 : ∀ q ∈ rs.map (·.period), q ≠ pLat → q ≤ pPrev) :
    ∃ t, (monthly_sales rs).reverse =
      (pLat, periodSum rs pLat) :: (pPrev, periodSum rs pPrev) :: t := by
  rw [monthly_sales_eq, groupSum_eq, ← List.map_reverse]
  have hgt : ((rs.map (·.period)).dedup.insertionSort
      (· ≤ ·)).reverse.Pairwise (· > ·) :=
    (List.pairwise_reverse).mpr
      ((sortedDedup_pairwise_lt _).imp fun h => h)
  have hLm : pLat ∈ ((rs.map (·.period)).dedup.insertionSort
      (· ≤ ·)).reverse := by
    rw [List.mem_reverse, mem_sortedDedup]; exact hL
  have hPm : pPrev ∈ ((rs.map (·.period)).dedup.insertionSort
      (· ≤ ·)).reverse := by
    rw [List.mem_reverse, mem_sortedDedup]; exact hP
  have hsub : ∀ q ∈ ((rs.map (·.period)).dedup.insertionSort
      (· ≤ ·)).reverse, q ∈ rs.map (·.period) := by
    intro q hq
    rw [List.mem_reverse, mem_sortedDedup] at hq
    exact hq
  cases hkr : ((rs.map (·.period)).dedup.insertionSort (· ≤ ·)).reverse with
  | nil => rw [hkr] at hLm; exact absurd hLm (List.not_mem_nil _)
  | cons d0 tl =>
    cases htl : tl with
    | nil =>
      rw [hkr, htl] at hLm hPm
      have h1 : pLat = d0 := by simpa using hLm
      have h2 : pPrev = d0 := by simpa using hPm
      exact absurd (h2.trans h1.symm) hne
    | cons d1 u =>
      rw [htl] at hkr
      rw [hkr] at hgt hLm hPm hsub
      have hd0 : d0 = pLat := by
        rcases List.mem_cons.mp hLm with h | h
        · exact h.symm
        · exact absurd ((List.pairwise_cons.mp hgt).1 pLat h)
            (not_lt.mpr (hmax d0 (hsub d0 (List.mem_cons_self _ _))))
      have hd1 : d1 = pPrev := by
        have hPm' : pPrev ∈ d1 :: u := by
          rcases List.mem_cons.mp hPm with h | h
          · exact absurd (h.trans hd0) hne
          · exact h
        rcases List.mem_cons.mp hPm' with h | h
        · exact h.symm
        · have hgt1 : d1 > pPrev :=
            (List.pairwise_cons.mp (List.pairwise_cons.mp hgt).2).1 pPrev h
          have hne1 : d1 ≠ pLat := by
            have hlt : d0 > d1 :=
              (List.pairwise_cons.mp hgt).1 d1 (List.mem_cons_self _ _)
            rw [hd0] at hlt
            exact ne_of_lt hlt
          have hle1 : d1 ≤ pPrev := hmax2 d1
            (hsub d1 (List.mem_cons_of_mem _ (List.mem_cons_self _ _))) hne1
          exact absurd hgt1 (not_lt.mpr hle1)
      refine ⟨u.map fun k =>
        (k, ((rs.filter fun r => decide (r.period = k)).map revVal).sum), ?_⟩
      rw [hd0, hd1]
      rfl

theorem mom_cons (rs : List Record) (c p : Period × ℚ) (t : List (Period × ℚ))
    (h : (monthly_sales rs).reverse = c :: p :: t) :
    mom rs = if p.2 ≠ 0 then (c.2 - p.2) / p.2 * 100 else 0 := by
  unfold mom
  rw [h]

theorem mom_nil (rs : List Record) (h : (monthly_sales rs).reverse = []) :
    mom rs = 0 := by
  unfold mom
  rw [h]

theorem mom_single (rs : List Record) (c : Period × ℚ)
    (h : (monthly_sales rs).reverse = [c]) : mom rs = 0 := by
  unfold mom
  rw [h]

/-- C6: when at least two distinct periods are present — `pLat` the
chronologically greatest period observed in the filtered data and `pPrev`
the greatest among the others (not necessarily the calendar-adjacent
month: a gap month with no data is skipped) — and the previous period's
revenue sum is nonzero, `mom` is exactly
`(latest − previous) / previous × 100`. -/
theorem C6_mom_formula (rs : List Record) (pLat pPrev : Period)
    (hL : pLat ∈ rs.map (·.period)) (hP : pPrev ∈ rs.map (·.period))
    (hne : pPrev ≠ pLat)
    (hmax : ∀ q ∈ rs.map (·.period), q ≤ pLat)
    (hmax2 : ∀ q ∈ rs.map (·.period), q ≠ pLat → q ≤ pPrev)
    (hnz : periodSum rs pPrev ≠ 0) :
    mom rs = (periodSum rs pLat - periodSum rs pPrev) /
      periodSum rs pPrev * 100 := by
  obtain ⟨t, ht⟩ := monthly_reverse_two_max rs pLat pPrev hL hP hne hmax hmax2
  rw [mom_cons rs _ _ t ht, if_pos hnz]

/-- One record only: a single distinct period. -/
def exSingle : List Record := [⟨⟨2024, 1⟩, "X", "P", none, some 5⟩]

/-- The spec's division-by-zero scenario: period 2024-01 sums to 0 and
period 2024-02 to 100. -/
def exZeroPrev : List Record :=
  [⟨⟨2024, 1⟩, "X", "P", none, some 0⟩,
   ⟨⟨2024, 2⟩, "X", "P", none, some 100⟩]

/-- The spec's gap-month scenario: data in 2024-04 and 2024-06 only. -/
def exGap : List Record :=
  [⟨⟨2024, 4⟩, "X", "P", none, some 50⟩,
   ⟨⟨2024, 6⟩, "X", "P", none, some 100⟩]

/-- C5: the month-over-month change is exactly 0 (not null, not an error,
not infinity) when fewer than 2 distinct periods are present, and when the
chronologically previous period's revenue sum is exactly 0; in particular
on `{2024-01 ↦ 0, 2024-02 ↦ 100}` it is 0. -/
theorem C5_mom_zero_edge_cases (rs : List Record) :
    ((rs.map (·.period)).dedup.length < 2 → mom rs = 0) ∧
    (∀ pLat pPrev : Period,
      pLat ∈ rs.map (·.period) → pPrev ∈ rs.map (·.period) →
      pPrev ≠ pLat → (∀ q ∈ rs.map (·.period), q ≤ pLat) →
      (∀ q ∈ rs.map (·.period), q ≠ pLat → q ≤ pPrev) →
      periodSum rs pPrev = 0 → mom rs = 0) ∧
    mom exZeroPrev = 0 := by
  have h2 : ∀ rs' : List Record, ∀ pLat pPrev : Period,
      pLat ∈ rs'.map (·.period) → pPrev ∈ rs'.map (·.period) →
      pPrev ≠ pLat → (∀ q ∈ rs'.map (·.period), q ≤ pLat) →
      (∀ q ∈ rs'.map (·.period), q ≠ pLat → q ≤ pPrev) →
      periodSum rs' pPrev = 0 → mom rs' = 0 := by
    intro rs' pLat pPrev hL hP hne hmax hmax2 h0
    obtain ⟨t, ht⟩ :=
      monthly_reverse_two_max rs' pLat pPrev hL hP hne hmax hmax2
    rw [mom_cons rs' _ _ t ht]
    exact if_neg (not_not_intro h0)
  refine ⟨?_, h2 rs, ?_⟩
  · intro hlt
    have hlen : (monthly_sales rs).reverse.length < 2 := by
      rw [List.length_reverse, monthly_sales_length]
      exact hlt
    cases hrev : (monthly_sales rs).reverse with
    | nil => exact mom_nil rs hrev
    | cons c tl =>
      cases htl : tl with
      | nil =>
        rw [htl] at hrev
        exact mom_single rs c hrev
      | cons p u =>
        rw [hrev, htl] at hlen
        simp at hlen
        omega
  · refine h2 exZeroPrev ⟨2024, 2⟩ ⟨2024, 1⟩ (by decide) (by decide)
      (by decide) (by decide) (by decide) ?_
    norm_num [periodSum, exZeroPrev, revVal, List.filter_cons]

/-- C5 witness: on a one-period RecordSet `mom` is 0 (hypothesis: one
distinct period), and on the zero-previous scenario `mom` is 0. -/
theorem C5_mom_zero_edge_cases_witness :
    mom exSingle = 0 ∧ mom exZeroPrev = 0 :=
  ⟨(C5_mom_zero_edge_cases exSingle).1 (by decide),
   (C5_mom_zero_edge_cases exZeroPrev).2.2⟩

/-- C6 witness: the gap-month scenario — periods 2024-04 and 2024-06
present, 2024-05 absent — compares 2024-06 against 2024-04 directly. -/
theorem C6_mom_formula_witness :
    periodSum exGap ⟨2024, 4⟩ ≠ 0 ∧
    mom exGap = (periodSum exGap ⟨2024, 6⟩ - periodSum exGap ⟨2024, 4⟩) /
      periodSum exGap ⟨2024, 4⟩ * 100 := by
  have hnz : periodSum exGap ⟨2024, 4⟩ ≠ 0 := by
    norm_num [periodSum, exGap, revVal, List.filter_cons]
  exact ⟨hnz, C6_mom_formula exGap ⟨2024, 6⟩ ⟨2024, 4⟩ (by decide) (by decide)
    (by decide) (by decide) (by decide) hnz⟩

/-- C4 witness: on column `[10, 9, 8, 8]` (tie at the third-largest value
8) at least 3 cells are flagged; on `[10, 9, 8, 7]` (no tie at 8) exactly
3 are. -/
theorem C4_top3_by_value_witness :
    ((([10, 9, 8, 8] : List ℚ).insertionSort (· ≤ ·)).reverse[2]? = some 8 ∧
      3 ≤ (highlight_top3 [10, 9, 8, 8]).count true) ∧
    ((([10, 9, 8, 7] : List ℚ).insertionSort (· ≤ ·)).reverse[2]? = some 8 ∧
      ([10, 9, 8, 7] : List ℚ).count 8 = 1 ∧
      (highlight_top3 [10, 9, 8, 7]).count true = 3) := by
  have h1 : (([10, 9, 8, 8] : List ℚ).insertionSort
      (· ≤ ·)).reverse[2]? = some 8 := by
    norm_num [List.insertionSort, List.orderedInsert]
  have h2 : (([10, 9, 8, 7] : List ℚ).insertionSort
      (· ≤ ·)).reverse[2]? = some 8 := by
    norm_num [List.insertionSort, List.orderedInsert]
  have hc : ([10, 9, 8, 7] : List ℚ).count 8 = 1 := by
    simp [List.count_cons]
  exact ⟨⟨h1, (C4_top3_by_value _ 8 h1).2.1⟩,
    ⟨h2, hc, (C4_top3_by_value _ 8 h2).2.2.1 hc⟩⟩

section Partition

variable {α κ : Type} [DecidableEq κ]

theorem sum_map_ite_key (key : α → κ) (v : α → ℚ) (x : α) :
    ∀ ks : List κ, ks.Nodup → key x ∈ ks →
      (ks.map fun k => if key x = k then v x else 0).sum = v x := by
  intro ks
  induction ks with
  | nil => intro _ hx; exact absurd hx (List.not_mem_nil _)
  | cons k t ih =>
    intro hnd hx
    rw [List.map_cons, List.sum_cons]
    by_cases hk : key x = k
    · rw [if_pos hk]
      have hz : (t.map fun k' => if key x = k' then v x else 0).sum = 0 := by
        refine List.sum_eq_zero ?_
        intro y hy
        rcases List.mem_map.mp hy with ⟨k', hk', rfl⟩
        rw [if_neg]
        intro he
        exact (List.pairwise_cons.mp hnd).1 k' hk' (hk ▸ he)
      rw [hz, add_zero]
    · rw [if_neg hk, zero_add]
      refine ih (List.pairwise_cons.mp hnd).2 ?_
      rcases List.mem_cons.mp hx with he | ht
      · exact absurd he hk
      · exact ht

/-- Summing the per-group sums over a duplicate-free list of keys that
covers every element recovers the total sum. -/
theorem sum_groups_eq (key : α → κ) (v : α → ℚ) :
    ∀ (l : List α) (ks : List κ), ks.Nodup → (∀ a ∈ l, key a ∈ ks) →
      (ks.map fun k =>
        ((l.filter fun a => decide (key a = k)).map v).sum).sum =
        (l.map v).sum := by
  intro l
  induction l with
  | nil =>
    intro ks _ _
    simp
  | cons x l' ih =>
    intro ks hnd hcov
    have hsplit : ∀ k : κ,
        (((x :: l').filter fun a => decide (key a = k)).map v).sum =
          (if key x = k then v x else 0) +
            ((l'.filter fun a => decide (key a = k)).map v).sum := by
      intro k
      rw [List.filter_cons]
      by_cases hk : key x = k
      · simp [hk]
      · simp [hk]
    have hmapeq : (ks.map fun k =>
        (((x :: l').filter fun a => decide (key a = k)).map v).sum) =
        ks.map fun k => (if key x = k then v x else 0) +
          ((l'.filter fun a => decide (key a = k)).map v).sum :=
      List.map_congr_left fun k _ => hsplit k
    rw [hmapeq, List.sum_map_add,
      sum_map_ite_key key v x ks hnd (hcov x (List.mem_cons_self _ _)),
      ih ks hnd fun a ha => hcov a (List.mem_cons_of_mem _ ha)]
    simp

end Partition

/-- C8: summing every cell of the (zero-filled, sorted) pivot table equals
the total revenue sum computed directly over the same filtered RecordSet
(nulls counting as 0 in both). -/
theorem C8_pivot_sum_roundtrip (rs : List Record) (anchor : Period) :
    ((pivot_table rs anchor).map fun row => row.2.sum).sum =
      total_sales rs := by
  have hperm : List.Perm (pivot_table rs anchor) (pivot_rows rs) := by
    unfold pivot_table
    split_ifs with h
    · exact sortDescBy_perm _ _
    · exact List.Perm.refl _
  rw [(hperm.map fun row => row.2.sum).sum_eq, pivot_rows, List.map_map]
  have hcell : ∀ c p, pivot_cell rs c p =
      (((rs.filter fun r => decide (r.channel = c)).filter
        fun r => decide (r.period = p)).map revVal).sum := by
    intro c p
    rw [pivot_cell, List.filter_filter]
    have hswap : (rs.filter fun r =>
        decide (r.channel = c) && decide (r.period = p)) =
        rs.filter fun r => decide (r.period = p) && decide (r.channel = c) :=
      List.filter_congr fun r _ => Bool.and_comm _ _
    rw [hswap]
  have hinner : ∀ c, ((pivot_cols rs).map fun p => pivot_cell rs c p).sum =
      ((rs.filter fun r => decide (r.channel = c)).map revVal).sum := by
    intro c
    have hm : ((pivot_cols rs).map fun p => pivot_cell rs c p) =
        (pivot_cols rs).map fun p =>
          (((rs.filter fun r => decide (r.channel = c)).filter
            fun r => decide (r.period = p)).map revVal).sum :=
      List.map_congr_left fun p _ => hcell c p
    rw [hm]
    refine sum_groups_eq (fun r : Record => r.period) revVal _ _
      (sortedDedup_nodup _) ?_
    intro a ha
    exact mem_sortedDedup.mpr
      (List.mem_map_of_mem _ (List.mem_of_mem_filter ha))
  have houter : ((pivot_rows0 rs).map
      ((fun row : String × List ℚ => row.2.sum) ∘ fun c =>
        (c, (pivot_cols rs).map fun p => pivot_cell rs c p))) =
      (pivot_rows0 rs).map fun c =>
        ((rs.filter fun r => decide (r.channel = c)).map revVal).sum :=
    List.map_congr_left fun c _ => hinner c
  rw [houter, total_sales]
  exact sum_groups_eq (fun r : Record => r.channel) revVal rs _
    (sortedDedup_nodup _) fun a ha =>
      mem_sortedDedup.mpr (List.mem_map_of_mem _ ha)

/-- Two records whose channels emerge in the order "B", "A"; channel "A"
has the larger revenue.  The pivot's base row order is "A", "B" (index
ascending), not the emergence order. -/
def exPivot : List Record :=
  [⟨⟨2024, 1⟩, "B", "P", none, some 10⟩,
   ⟨⟨2024, 1⟩, "A", "P", none, some 20⟩]

/-- C7 counterexample: with the anchor period 2024-02 absent from the
pivot's columns, the pivot leaves its rows in channel-ascending order
`["A", "B"]`, while the original row-emergence order of the channels is
`["B", "A"]` — so the unsorted row order is NOT the emergence order. -/
theorem C7_row_order_counterexample :
    (⟨2024, 2⟩ : Period) ∉ pivot_cols exPivot ∧
    (pivot_table exPivot ⟨2024, 2⟩).map Prod.fst = ["A", "B"] ∧
    exPivot.map (·.channel) = ["B", "A"] := by
  refine ⟨by decide, ?_, by decide⟩
  simp [exPivot, pivot_table, pivot_rows, pivot_rows0, pivot_cols,
    List.insertionSort, List.orderedInsert, List.dedup, List.pwFilter]
  rw [if_neg (by decide : ¬ (['B'] : List Char) ≤ ['A'])]
  simp

/-- C7 (amended): when the anchor period is among the pivot's columns the
rows are sorted by the anchor column's value descending; when it is absent
the rows keep the pivot's default order — the observed channels sorted by
key ascending (pandas sorts the pivot index), which is in general NOT the
original row-emergence order of the channels. -/
theorem C7_pivot_row_order (rs : List Record) (anchor : Period) :
    (anchor ∈ pivot_cols rs →
      (pivot_table rs anchor).Pairwise fun a b =>
        pivot_cell rs b.1 anchor ≤ pivot_cell rs a.1 anchor) ∧
    (anchor ∉ pivot_cols rs →
      (pivot_table rs anchor).map Prod.fst =
        (rs.map (·.channel)).dedup.insertionSort (· ≤ ·) ∧
      ((pivot_table rs anchor).map Prod.fst).Sorted (· ≤ ·)) := by
  constructor
  · intro h
    unfold pivot_table
    rw [if_pos h]
    exact sortDescBy_pairwise _ _
  · intro h
    unfold pivot_table
    rw [if_neg h]
    have hfst : (pivot_rows rs).map Prod.fst =
        (rs.map (·.channel)).dedup.insertionSort (· ≤ ·) := by
      rw [pivot_rows, List.map_map]
      exact List.map_id _
    exact ⟨hfst, hfst ▸ sortedDedup_sorted _⟩

/-- C7 witness: with anchor 2024-01 (present) the rows of `exPivot`'s
pivot are anchor-value descending; with anchor 2024-02 (absent) they are
the channel keys ascending. -/
theorem C7_pivot_row_order_witness :
    ((⟨2024, 1⟩ : Period) ∈ pivot_cols exPivot ∧
      (pivot_table exPivot ⟨2024, 1⟩).Pairwise fun a b =>
        pivot_cell exPivot b.1 ⟨2024, 1⟩ ≤ pivot_cell exPivot a.1 ⟨2024, 1⟩) ∧
    ((⟨2024, 2⟩ : Period) ∉ pivot_cols exPivot ∧
      (pivot_table exPivot ⟨2024, 2⟩).map Prod.fst =
        (exPivot.map (·.channel)).dedup.insertionSort (· ≤ ·)) :=
  ⟨⟨by decide, (C7_pivot_row_order exPivot ⟨2024, 1⟩).1 (by decide)⟩,
   ⟨by decide, ((C7_pivot_row_order exPivot ⟨2024, 2⟩).2 (by decide)).1⟩⟩

/-- `find?` on a key-ascending aggregate whose predicate accepts `c` but
rejects every observed key below `c` returns `c`'s entry. -/
theorem find_first_argmax (rs : List Record) (c : String)
    (p : String × ℚ → Bool)
    (hpc : p (c, channelSum rs c) = true)
    (hpk : ∀ k, k ∈ rs.map (·.channel) → k < c →
      p (k, channelSum rs k) = false) :
    ∀ ks : List String, ks.Sorted (· ≤ ·) → ks.Nodup → c ∈ ks →
      (∀ k ∈ ks, k ∈ rs.map (·.channel)) →
      (ks.map fun k => (k, channelSum rs k)).find? p =
        some (c, channelSum rs c) := by
  intro ks
  induction ks with
  | nil => intro _ _ hc' _; exact absurd hc' (List.not_mem_nil _)
  | cons k t ih =>
    intro hs hnd hc' hsub
    rw [List.map_cons]
    by_cases hkc : k = c
    · subst hkc
      exact List.find?_cons_of_pos _ hpc
    · have hct : c ∈ t := by
        rcases List.mem_cons.mp hc' with he | ht
        · exact absurd he.symm hkc
        · exact ht
      have hklt : k < c :=
        lt_of_le_of_ne ((List.sorted_cons.mp hs).1 c hct) hkc
      rw [List.find?_cons_of_neg _
        (by rw [hpk k (hsub k (List.mem_cons_self _ _)) hklt]; simp)]
      exact ih (List.sorted_cons.mp hs).2 (List.pairwise_cons.mp hnd).2 hct
        fun k' hk' => hsub k' (List.mem_cons_of_mem _ hk')

/-- C10: on a non-empty filtered RecordSet, the top-channel KPI returns
the smallest channel key (in the string order) among those achieving the
maximal summed revenue — the grouped sums are keyed ascending and `idxmax`
takes the first maximum — and in particular the empty-data sentinel is
never produced. -/
theorem C10_top_channel_min_argmax (rs : List Record) (c : String)
    (hne : rs ≠ [])
    (hc : c ∈ rs.map (·.channel))
    (hmax : ∀ c' ∈ rs.map (·.channel), channelSum rs c' ≤ channelSum rs c)
    (hmin : ∀ c' ∈ rs.map (·.channel),
      channelSum rs c' = channelSum rs c → c ≤ c') :
    top_channel rs = c := by
  have hemp : ¬ (rs.isEmpty = true) := by
    cases rs with
    | nil => exact absurd rfl hne
    | cons x l => simp
  have hcs : channel_sums rs = ((rs.map (·.channel)).dedup.insertionSort
      (· ≤ ·)).map fun k => (k, channelSum rs k) := rfl
  have hfind2 : (channel_sums rs).find?
      (fun kv => decide (∀ kv' ∈ channel_sums rs, kv'.2 ≤ kv.2)) =
      some (c, channelSum rs c) := by
    rw [hcs]
    refine find_first_argmax rs c _ ?_ ?_
      ((rs.map (·.channel)).dedup.insertionSort (· ≤ ·))
      (sortedDedup_sorted _) (sortedDedup_nodup _) (mem_sortedDedup.mpr hc)
      (fun k hk => mem_sortedDedup.mp hk)
    · rw [decide_eq_true_eq]
      intro kv' hkv'
      rcases List.mem_map.mp hkv' with ⟨k', hk', rfl⟩
      exact hmax k' (mem_sortedDedup.mp hk')
    · intro k hk hklt
      rw [decide_eq_false_iff_not]
      intro hall
      have hcmem : (c, channelSum rs c) ∈
          ((rs.map (·.channel)).dedup.insertionSort (· ≤ ·)).map
            fun k' => (k', channelSum rs k') :=
        List.mem_map.mpr ⟨c, mem_sortedDedup.mpr hc, rfl⟩
      have h1 : channelSum rs c ≤ channelSum rs k := hall _ hcmem
      have h2 : channelSum rs k ≤ channelSum rs c := hmax k hk
      exact absurd (hmin k hk (le_antisymm h2 h1)) (not_le.mpr hklt)
  unfold top_channel idxmax
  rw [if_neg hemp, hfind2]
  rfl

/-- Channels "B" and "A" tied at summed revenue 5. -/
def exTop : List Record :=
  [⟨⟨2024, 1⟩, "B", "P", none, some 5⟩,
   ⟨⟨2024, 1⟩, "A", "Q", none, some 5⟩]

/-- Channels "B" and "A", every revenue cell null. -/
def exNull : List Record :=
  [⟨⟨2024, 1⟩, "B", "P", none, none⟩,
   ⟨⟨2024, 1⟩, "A", "Q", none, none⟩]

/-- C10 witness: with "A" and "B" tied at the maximum, the smaller key "A"
wins; with every revenue null (all group sums 0) the result is still the
smallest channel key, not the sentinel. -/
theorem C10_top_channel_min_argmax_witness :
    (exTop ≠ [] ∧ top_channel exTop = "A") ∧
    (exNull ≠ [] ∧ top_channel exNull = "A") := by
  have hAB : ("A" : String) ≤ "B" := by
    simp
    decide
  have hab : (decide (("A" : String) = "B")) = false := by decide
  have hba : (decide (("B" : String) = "A")) = false := by decide
  have hTB : channelSum exTop "B" = 5 := by
    norm_num [channelSum, exTop, revVal, List.filter, hab, hba]
  have hTA : channelSum exTop "A" = 5 := by
    norm_num [channelSum, exTop, revVal, List.filter, hab, hba]
  have hNB : channelSum exNull "B" = 0 := by
    norm_num [channelSum, exNull, revVal, List.filter, hab, hba]
  have hNA : channelSum exNull "A" = 0 := by
    norm_num [channelSum, exNull, revVal, List.filter, hab, hba]
  constructor
  · refine ⟨by simp [exTop], C10_top_channel_min_argmax exTop "A"
      (by simp [exTop]) (by decide) ?_ ?_⟩
    · intro c' hc'
      have hcc : c' = "B" ∨ c' = "A" := by simpa [exTop] using hc'
      rcases hcc with rfl | rfl
      · rw [hTB, hTA]
      · exact le_refl _
    · intro c' hc' _
      have hcc : c' = "B" ∨ c' = "A" := by simpa [exTop] using hc'
      rcases hcc with rfl | rfl
      · exact hAB
      · exact le_refl _
  · refine ⟨by simp [exNull], C10_top_channel_min_argmax exNull "A"
      (by simp [exNull]) (by decide) ?_ ?_⟩
    · intro c' hc'
      have hcc : c' = "B" ∨ c' = "A" := by simpa [exNull] using hc'
      rcases hcc with rfl | rfl
      · rw [hNB, hNA]
      · exact le_refl _
    · intro c' hc' _
      have hcc : c' = "B" ∨ c' = "A" := by simpa [exNull] using hc'
      rcases hcc with rfl | rfl
      · exact hAB
      · exact le_refl _

/-- Digit-string value: `none` unless the (comma-stripped) cell is a
nonempty run of decimal digits. -/
def parseDigits : List Char → Option Nat
  | [] => none
  | cs =>
    if cs.all (·.isDigit) then
      some (cs.foldl (fun acc c => acc * 10 + (c.toNat - 48)) 0)
    else none

/-- `str.replace(",", "") |> pd.to_numeric(errors="coerce")`, modelled on
integer-formed cells: strip every thousands separator, then an optional
minus sign followed by digits parses to that integer, and anything else
(e.g. `"abc"`) coerces to null. -/
def parseNum (s : String) : Option ℚ :=
  match s.data.filter (· != ',') with
  | '-' :: rest => (parseDigits rest).map fun n => -(n : ℚ)
  | cs => (parseDigits cs).map fun n => (n : ℚ)

/-- A raw sheet row after column selection: the two numeric cells still
unparsed (`출고일자` is consumed by the upstream window cut and not
modelled; `출고년월` is kept canonical as in §3 of the spec). -/
structure RawRow where
  period : Period
  channel : String
  product : String
  qtyCell : String
  revCell : String

/-- The numeric normalization of one row in `load_data`: the record is
retained whatever the cells hold; unparseable cells become null. -/
def normalizeRow (r : RawRow) : Record :=
  ⟨r.period, r.channel, r.product, parseNum r.qtyCell, parseNum r.revCell⟩

/-- The numeric-normalization stage of `load_data`. -/
def load_data (rows : List RawRow) : List Record :=
  rows.map normalizeRow

/-- C9: a row whose quantity cell is unparseable is retained, contributes
0 to the quantity total, and its revenue still contributes normally —
and symmetrically when the revenue cell is unparseable. -/
theorem C9_unparseable_null_as_zero (l1 l2 : List RawRow) (row : RawRow) :
    (load_data (l1 ++ row :: l2)).length = l1.length + l2.length + 1 ∧
    (parseNum row.qtyCell = none →
      total_qty (load_data (l1 ++ row :: l2)) =
        total_qty (load_data (l1 ++ l2)) ∧
      total_sales (load_data (l1 ++ row :: l2)) =
        total_sales (load_data (l1 ++ l2)) + (parseNum row.revCell).getD 0) ∧
    (parseNum row.revCell = none →
      total_sales (load_data (l1 ++ row :: l2)) =
        total_sales (load_data (l1 ++ l2)) ∧
      total_qty (load_data (l1 ++ row :: l2)) =
        total_qty (load_data (l1 ++ l2)) + (parseNum row.qtyCell).getD 0) := by
  have hq : total_qty (load_data (l1 ++ row :: l2)) =
      total_qty (load_data (l1 ++ l2)) + (parseNum row.qtyCell).getD 0 := by
    simp [load_data, total_qty, qtyVal, normalizeRow, List.map_append,
      List.sum_append]
    ring
  have hs : total_sales (load_data (l1 ++ row :: l2)) =
      total_sales (load_data (l1 ++ l2)) + (parseNum row.revCell).getD 0 := by
    simp [load_data, total_sales, revVal, normalizeRow, List.map_append,
      List.sum_append]
    ring
  refine ⟨by simp [load_data]; omega, ?_, ?_⟩
  · intro h
    rw [h] at hq
    simp at hq
    exact ⟨hq, hs⟩
  · intro h
    rw [h] at hs
    simp at hs
    exact ⟨hs, hq⟩

/-- The spec's parse scenario, row 1: quantity cell `"abc"`. -/
def exRowA : RawRow := ⟨⟨2024, 5⟩, "A", "Tea", "abc", "1,000"⟩

/-- The spec's parse scenario, row 2. -/
def exRowB : RawRow := ⟨⟨2024, 5⟩, "B", "Tea", "5", "500"⟩

/-- C9 witness: the spec scenario — with row 1's quantity cell `"abc"`,
the quantity total is 5 (row 1 contributes 0) while the revenue total is
still 1500 (row 1's 1,000 counts normally). -/
theorem C9_unparseable_null_as_zero_witness :
    parseNum "abc" = none ∧
    total_qty (load_data [exRowA, exRowB]) = 5 ∧
    total_sales (load_data [exRowA, exRowB]) = 1500 := by
  have habc : parseNum "abc" = none := by simp [parseNum, parseDigits]
  have h5 : parseNum "5" = some 5 := by simp [parseNum, parseDigits]
  have h500 : parseNum "500" = some 500 := by simp [parseNum, parseDigits]
  have h1000 : parseNum "1,000" = some 1000 := by
    simp [parseNum, parseDigits]
  obtain ⟨hq, hs⟩ :=
    (C9_unparseable_null_as_zero [] [exRowB] exRowA).2.1 habc
  have hq2 : total_qty (load_data ([] ++ [exRowB])) = 5 := by
    norm_num [load_data, normalizeRow, total_qty, qtyVal, exRowB, h5]
  have hs2 : total_sales (load_data ([] ++ [exRowB])) = 500 := by
    norm_num [load_data, normalizeRow, total_sales, revVal, exRowB, h500]
  have hrev : (parseNum exRowA.revCell).getD 0 = 1000 := by
    norm_num [exRowA, h1000]
  refine ⟨habc, ?_, ?_⟩
  · have : total_qty (load_data ([] ++ exRowA :: [exRowB])) = 5 := by
      rw [hq, hq2]
    simpa using this
  · have : total_sales (load_data ([] ++ exRowA :: [exRowB])) = 1500 := by
      rw [hs, hs2, hrev]
      norm_num
    simpa using this

/-- C1 counterexample: with an empty selected-periods set the
anchor-period computation `sorted(selected_months)[-1]` has no value (in
Python it raises `IndexError: list index out of range`), so the pipeline
run produces no outputs — even though the record set is well-typed and
nonempty. -/
theorem C1_empty_months_counterexample :
    latest_month [] = none ∧ run_pipeline [] ["X"] ["P"] exSingle = none :=
  ⟨rfl, rfl⟩

/-- C1 (amended): with a NONEMPTY selected-periods inclusion set, the
whole pipeline downstream of normalization (KPIs, MoM, trend, rankings,
pivot construction and anchor-period selection) completes for every
well-typed RecordSet and every choice of the channel and product
inclusion sets, empty ones included; when the selected-periods set is
empty, the anchor-period computation fails (IndexError, modelled by
`none`). -/
theorem C1_pipeline_total (months : List Period) (chans prods : List String)
    (rs : List Record) (h : months ≠ []) :
    (run_pipeline months chans prods rs).isSome = true := by
  unfold run_pipeline
  cases hlm : latest_month months with
  | some a => simp [hlm]
  | none =>
    exfalso
    rw [latest_month, List.getLast?_eq_none_iff] at hlm
    have hp := List.perm_insertionSort (· ≤ ·) months
    rw [hlm] at hp
    exact h (List.Perm.eq_nil hp.symm)

/-- C1 witness: a concrete run with one selected period completes. -/
theorem C1_pipeline_total_witness :
    ([⟨2024, 1⟩] : List Period) ≠ [] ∧
    (run_pipeline [⟨2024, 1⟩] ["X"] ["P"] exSingle).isSome = true :=
  ⟨by simp, C1_pipeline_total [⟨2024, 1⟩] ["X"] ["P"] exSingle (by simp)⟩
